import Mathlib

/-!
Verification of the `BeeRebrander` rebranding script (Pika → Bee).

The script walks a directory tree, applies a fixed table of literal
string substitutions to the contents of text files, renames files and
directories whose names contain mapped terms, relocates `pika` package
directories, renames the root, and writes a Markdown summary.

Python strings are embedded as Lean `String` (a structure over
`List Char`); `str.count` and `str.replace` (non-overlapping,
left-to-right) are reimplemented on `List Char` below, including
Python's empty-pattern behaviour.  The filesystem is embedded as a
rose tree given by a pair of mutual inductives.
-/

set_option maxRecDepth 100000

/-- Characters of a Python string. -/
abbrev Chars := List Char

/-- `leadsWith pat s` is true when `pat` is an initial segment of `s`
(the prefix test used when scanning for a match). -/
def leadsWith : Chars → Chars → Bool
  | [], _ => true
  | _ :: _, [] => false
  | a :: as, b :: bs => if a = b then leadsWith as bs else false

/-- Scanner for Python `str.count(pat)` with a nonempty pattern: counts
non-overlapping occurrences left to right.  The `Nat` argument is the
number of characters still to be skipped after a match (so the
recursion is structural in the string). -/
def countSkip (pat : Chars) : Nat → Chars → Nat
  | _, [] => 0
  | Nat.succ k, _ :: rest => countSkip pat k rest
  | 0, c :: rest =>
    if leadsWith pat (c :: rest) then 1 + countSkip pat (pat.length - 1) rest
    else countSkip pat 0 rest

/-- Scanner for Python `str.replace(pat, rep)` with a nonempty pattern:
replaces non-overlapping occurrences left to right. -/
def replaceSkip (pat rep : Chars) : Nat → Chars → Chars
  | _, [] => []
  | Nat.succ k, _ :: rest => replaceSkip pat rep k rest
  | 0, c :: rest =>
    if leadsWith pat (c :: rest) then rep ++ replaceSkip pat rep (pat.length - 1) rest
    else c :: replaceSkip pat rep 0 rest

/-- Python `s.count(pat)`; for the empty pattern Python returns
`len(s) + 1`. -/
def pyCount (s pat : Chars) : Nat :=
  match pat with
  | [] => s.length + 1
  | _ :: _ => countSkip pat 0 s

/-- Python `s.replace(pat, rep)`; for the empty pattern Python inserts
`rep` before every character and at the end. -/
def pyReplace (s pat rep : Chars) : Chars :=
  match pat with
  | [] => rep ++ List.flatten (s.map fun c => c :: rep)
  | _ :: _ => replaceSkip pat rep 0 s

/-- `str.count` on Lean strings. -/
def pyCountS (s pat : String) : Nat := pyCount s.data pat.data

/-- `str.replace` on Lean strings. -/
def pyReplaceS (s pat rep : String) : String := String.mk (pyReplace s.data pat.data rep.data)

/-- Python's `pat in s` substring test. -/
def pyContainsS (s pat : String) : Bool := decide (0 < pyCountS s pat)

/-- Stable insertion step for sorting by `old_term` length, descending:
an element is placed before the first strictly shorter key, after all
keys of at least its length.  Elements inserted later (i.e. earlier in
the original list) therefore come before equal-length elements, which
is exactly the stability guarantee of Python's `sorted`. -/
def insertByLen (p : String × String) : List (String × String) → List (String × String)
  | [] => [p]
  | q :: rest => if q.1.length ≤ p.1.length then p :: q :: rest else q :: insertByLen p rest

/-- Embedding of `sorted(self.term_mappings.items(), key=lambda x: len(x[0]), reverse=True)`:
a stable sort by key length, descending.  Any stable sort agrees with
Python's Timsort on the result, and insertion sort is stable. -/
def sortByLenDesc : List (String × String) → List (String × String)
  | [] => []
  | p :: rest => insertByLen p (sortByLenDesc rest)

/-- `self.term_mappings`, in Python dict insertion order. -/
def term_mappings : List (String × String) :=
  [("Pika", "Bee"), ("pika", "bee"), ("PIKA", "BEE"),
   ("Yeet", "Buzz"), ("yeet", "buzz"), ("Yeets", "Buzzes"), ("yeets", "buzzes"),
   ("yeeting", "buzzing"), ("Yeeted", "Buzzed"), ("yeeted", "buzzed"),
   ("Reyeet", "Rebuzz"), ("reyeet", "rebuzz"), ("Reyeets", "Rebuzzes"), ("reyeets", "rebuzzes"),
   ("Friends Notes", "Hive Notes"), ("FriendsNotes", "HiveNotes"),
   ("friends_notes", "hive_notes"), ("friendsNotes", "hiveNotes"),
   ("Topic Zones", "Hive Sections"), ("TopicZones", "HiveSections"),
   ("topic_zones", "hive_sections"), ("topicZones", "hiveSections"),
   ("Lightning", "Sting"), ("lightning", "sting"),
   ("Where conversations spark", "Where conversations buzz"),
   ("⚡", "🐝"),
   ("com.pika.app", "com.bee.app"), ("com/pika/app", "com/bee/app")]

/-- `self.processable_extensions` (a Python set used only for
membership tests). -/
def processable_extensions : List String :=
  [".kt", ".kts", ".java", ".swift", ".xml", ".json",
   ".yaml", ".yml", ".md", ".txt", ".gradle", ".properties",
   ".conf", ".toml", ".html", ".css", ".js", ".ts"]

/-- `self.skip_patterns` (a Python set; `should_skip` only asks whether
any member matches, so the iteration order of the set is irrelevant). -/
def skip_patterns : List String :=
  [".git", ".gradle", "build", ".idea", "node_modules",
   "__pycache__", ".DS_Store", "*.class", "*.jar"]

/-- `self.stats` counters. -/
structure Stats where
  files_renamed : Nat
  folders_renamed : Nat
  files_modified : Nat
  replacements_made : Nat
deriving DecidableEq

/-- The stats dictionary as initialised in `__init__`. -/
def initStats : Stats := ⟨0, 0, 0, 0⟩

/-- `should_skip`: true when any skip pattern occurs as a literal
substring of the path's string form. -/
def should_skip (path : String) : Bool :=
  skip_patterns.any fun pat => pyContainsS path pat

/-- Body of the loop in `replace_in_content`: count occurrences of the
pair's `old_term` in the current text and, when positive, add the count
and replace. -/
def ricStep (acc : String × Nat) (p : String × String) : String × Nat :=
  if pyCountS acc.1 p.1 > 0 then (pyReplaceS acc.1 p.1 p.2, acc.2 + pyCountS acc.1 p.1)
  else acc

/-- `replace_in_content`: apply every mapping pair, longest `old_term`
first, returning the substituted text and the total replacement count. -/
def replace_in_content (mappings : List (String × String)) (content : String) : String × Nat :=
  (sortByLenDesc mappings).foldl ricStep (content, 0)

/-- `rename_path_component`: apply the mapping pairs to a single name,
in the mapping's own (insertion) order, replacing whenever the
`old_term` occurs in the current name. -/
def rename_path_component (mappings : List (String × String)) (name : String) : String :=
  mappings.foldl
    (fun new_name p => if pyContainsS new_name p.1 then pyReplaceS new_name p.1 p.2 else new_name)
    name

/-- Index of the last '.' in a name, accumulator style. -/
def lastDotIndexAux : Chars → Nat → Option Nat → Option Nat
  | [], _, acc => acc
  | c :: rest, i, acc => lastDotIndexAux rest (i + 1) (if c = '.' then some i else acc)

/-- Python `PurePath.suffix`: the final `'.'`-extension of the name,
empty when the last dot is the first or the last character. -/
def pathSuffix (name : String) : String :=
  match lastDotIndexAux name.data 0 none with
  | none => ""
  | some i =>
    if 0 < i ∧ i < name.data.length - 1 then String.mk (name.data.drop i) else ""

/-- A regular file.  `readable` is false when the environment injects
an I/O failure at the moment the file is opened for reading (the
simulated per-file fault of the spec's isolation test); `writes` counts
how many times the tool has written the file back, i.e. how often its
modification metadata has changed. -/
structure FileE where
  name : String
  content : String
  readable : Bool
  writes : Nat
deriving DecidableEq

mutual
/-- A directory: name, regular files, subdirectories. -/
inductive DirT where
  | mk : String → List FileE → DirList → DirT

/-- Children directories (a specialised list, so that the tree walk is
mutual structural recursion). -/
inductive DirList where
  | nil : DirList
  | cons : DirT → DirList → DirList
end

def DirT.name : DirT → String
  | .mk n _ _ => n

def DirT.files : DirT → List FileE
  | .mk _ fs _ => fs

def DirT.subdirs : DirT → DirList
  | .mk _ _ ds => ds

def DirT.withName : DirT → String → DirT
  | .mk _ fs ds, n => .mk n fs ds

/-- `str(parent / name)`: POSIX path join. -/
def childPath (pp name : String) : String := pp ++ "/" ++ name

/-- The rename step of `process_file` (both the unprocessable-file
branch, lines 129-135, and the final rename, lines 154-160, of the
source run exactly this code). -/
def renameStep (f : FileE) (st : Stats) : FileE × Stats :=
  if rename_path_component term_mappings f.name ≠ f.name then
    ({ f with name := rename_path_component term_mappings f.name },
     { st with files_renamed := st.files_renamed + 1 })
  else (f, st)

/-- `process_file`.  `path` is the file's full path string.  Reading a
file whose `readable` flag is false raises; the surrounding
`try/except` catches the exception, logs it and returns, leaving file
and stats untouched. -/
def process_file (path : String) (f : FileE) (st : Stats) : FileE × Stats :=
  if should_skip path then (f, st)
  else if processable_extensions.contains (pathSuffix f.name) = false then
    renameStep f st
  else if f.readable = false then (f, st)
  else if (replace_in_content term_mappings f.content).2 > 0 then
    renameStep
      { f with content := (replace_in_content term_mappings f.content).1,
               writes := f.writes + 1 }
      { st with files_modified := st.files_modified + 1,
                replacements_made := st.replacements_made + (replace_in_content term_mappings f.content).2 }
  else renameStep f st

/-- The first loop of `process_directory`: process every regular file
of the directory (Python iterates them in sorted name order; the list
is that enumeration). -/
def processFiles (dirPath : String) (fs : List FileE) (st : Stats) : List FileE × Stats :=
  match fs with
  | [] => ([], st)
  | f :: rest =>
    let r1 := process_file (childPath dirPath f.name) f st
    let r2 := processFiles dirPath rest r1.2
    (r1.1 :: r2.1, r2.2)

mutual
/-- `process_directory`: skip check, then files, then subdirectories,
then rename the directory itself (unless it is `self.base_path`, which
`isRoot` records). -/
def process_directory (dirPath : String) (isRoot : Bool) (d : DirT) (st : Stats) : DirT × Stats :=
  match d with
  | .mk name fs ds =>
    if should_skip dirPath then (DirT.mk name fs ds, st)
    else
      let r1 := processFiles dirPath fs st
      let r2 := processSubdirs dirPath ds r1.2
      let new_name := rename_path_component term_mappings name
      if new_name ≠ name ∧ isRoot = false then
        (DirT.mk new_name r1.1 r2.1,
         { r2.2 with folders_renamed := r2.2.folders_renamed + 1 })
      else (DirT.mk name r1.1 r2.1, r2.2)

/-- The second loop of `process_directory`: recurse into each
subdirectory (paths are formed from the names current at loop start). -/
def processSubdirs (dirPath : String) (ds : DirList) (st : Stats) : DirList × Stats :=
  match ds with
  | .nil => (.nil, st)
  | .cons d rest =>
    let r1 := process_directory (childPath dirPath d.name) false d st
    let r2 := processSubdirs dirPath rest r1.2
    (.cons r1.1 r2.1, r2.2)
end

/-- Does the directory list contain a directory of the given name
(Python's `'pika' in dirs`)? -/
def hasChildNamed (n : String) : DirList → Bool
  | .nil => false
  | .cons d rest => if d.name = n then true else hasChildNamed n rest

mutual
/-- `rename_package_structure`, one `os.walk` step: at each visited
directory, when a child directory named `pika` exists and the visited
path is not skipped, rename that child to `bee`; `os.walk` then
descends by the names recorded before the rename, so the renamed child
is not visited further.  Returns the tree and the number of folders
renamed. -/
def rename_pkg (dirPath : String) (d : DirT) : DirT × Nat :=
  match d with
  | .mk name fs ds =>
    let doR := hasChildNamed "pika" ds && !(should_skip dirPath)
    let r := renamePkgChildren dirPath doR ds
    (DirT.mk name fs r.1, r.2)

/-- Walk the children for `rename_package_structure`: the first child
named `pika` (directory names are unique on a filesystem) is renamed
to `bee` and not descended into; all other children are walked. -/
def renamePkgChildren (dirPath : String) (doR : Bool) : DirList → DirList × Nat
  | .nil => (.nil, 0)
  | .cons c rest =>
    if doR ∧ c.name = "pika" then
      let r := renamePkgChildren dirPath false rest
      (.cons (c.withName "bee") r.1, r.2 + 1)
    else
      let r1 := rename_pkg (childPath dirPath c.name) c
      let r2 := renamePkgChildren dirPath doR rest
      (.cons r1.1 r2.1, r1.2 + r2.2)
end

/-- The fixed part of the summary document following the four
interpolated counters (source lines 231-314 of the f-string in
`create_rebrand_summary`). -/
def summaryTail : String :=
  "\n\n## Key Changes\n\n### App Identity\n- **Pika** → **Bee**\n"
  ++ "- **Package:** com.pika.app → com.bee.app\n"
  ++ "- **Tagline:** \"Where conversations spark\" → \"Where conversations buzz\"\n"
  ++ "\n### Terminology Updates\n| Old Term | New Term |\n|----------|----------|\n"
  ++ "| Yeet | Buzz |\n| Reyeet | Rebuzz |\n| Friends Notes | Hive Notes |\n"
  ++ "| Topic Zones | Hive Sections |\n| Lightning | Sting |\n"
  ++ "\n### Visual Identity\n- **Icon:** ⚡ → 🐝\n- **Colors:** Yellow/black theme (bee-inspired)\n"
  ++ "- **Patterns:** Hexagon/honeycomb designs\n"
  ++ "\n## Next Steps\n\n1. **Update Assets:**\n   - [ ] App icons (iOS, Android, Desktop)\n"
  ++ "   - [ ] Splash screens\n   - [ ] Marketing materials\n   - [ ] Social media branding\n"
  ++ "\n2. **Update Documentation:**\n   - [ ] API documentation\n   - [ ] User guides\n"
  ++ "   - [ ] Developer documentation\n   - [ ] README files\n"
  ++ "\n3. **Update External Services:**\n   - [ ] Firebase/Analytics projects\n"
  ++ "   - [ ] App Store listings\n   - [ ] Google Play Store\n"
  ++ "   - [ ] Domain names (bee.social, getbee.app)\n   - [ ] Social media handles\n"
  ++ "\n4. **Update Backend:**\n   - [ ] Database schema (if needed)\n"
  ++ "   - [ ] API endpoints (if hardcoded)\n   - [ ] Environment variables\n"
  ++ "   - [ ] CI/CD pipelines\n"
  ++ "\n5. **Legal/Business:**\n   - [ ] Trademark registration for \"Bee Social\"\n"
  ++ "   - [ ] Update company documents\n   - [ ] Update Terms of Service\n"
  ++ "   - [ ] Update Privacy Policy\n"
  ++ "\n## Verification Checklist\n\nRun these commands to verify the rebrand:\n\n```bash\n"
  ++ "# Search for any remaining \"Pika\" references\n"
  ++ "grep -r \"Pika\" . --exclude-dir=.git --exclude-dir=build\n"
  ++ "\n# Search for \"pika\" in lowercase\n"
  ++ "grep -r \"pika\" . --exclude-dir=.git --exclude-dir=build\n"
  ++ "\n# Check package structure\nfind . -type d -name \"pika\"\n"
  ++ "\n# Verify build\n./gradlew clean build\n```\n"
  ++ "\n## Rollback Plan\n\nIf issues arise:\n1. Restore from version control (git)\n"
  ++ "2. Re-run script with inverse mappings\n3. Rebuild all artifacts\n"
  ++ "\n---\n\n**Generated by BeeRebrander**\n"

/-- The part of the summary document up to and including the four
interpolated counters (`{self.__class__.__name__}` interpolates to
`BeeRebrander`). -/
def statsPart (st : Stats) : String :=
  "# Bee Rebranding Summary\n\n**Date:** BeeRebrander execution completed\n\n## Overview\n"
  ++ "Successfully rebranded from **Pika** to **Bee** 🐝\n\n## Statistics\n"
  ++ "- **Files Renamed:** " ++ toString st.files_renamed ++ "\n"
  ++ "- **Folders Renamed:** " ++ toString st.folders_renamed ++ "\n"
  ++ "- **Files Modified:** " ++ toString st.files_modified ++ "\n"
  ++ "- **Total Replacements:** " ++ toString st.replacements_made

/-- `summary_content` of `create_rebrand_summary`. -/
def summary_content (st : Stats) : String := statsPart st ++ summaryTail

/-- Write `REBRAND_SUMMARY.md` into a file list: overwrite the file if
present (it was just written by the tool, so it is readable and its
metadata changed), else create it. -/
def upsertFileList (content : String) : List FileE → List FileE
  | [] => [⟨"REBRAND_SUMMARY.md", content, true, 1⟩]
  | f :: rest =>
    if f.name = "REBRAND_SUMMARY.md" then
      { f with content := content, readable := true, writes := f.writes + 1 } :: rest
    else f :: upsertFileList content rest

/-- `create_rebrand_summary`: write the summary under the (current)
root directory. -/
def upsertSummary (d : DirT) (content : String) : DirT :=
  match d with
  | .mk name fs ds => .mk name (upsertFileList content fs) ds

/-- `rebrand`: the full run.  `none` models a missing root path (the
fatal precondition: the run aborts before touching anything).  For an
existing root: phase 1 walks and rewrites the tree, phase 2 relocates
`pika` package directories, phase 3 renames the root to `bee-kmp`
(`self.new_base_path` with the leading `./` stripped, as Python's
`str(Path)` does), phase 4 writes the summary under the new root. -/
def rebrand (root : Option DirT) : Option DirT × Stats :=
  match root with
  | none => (none, initStats)
  | some d =>
    let r1 := process_directory d.name true d initStats
    let r2 := rename_pkg r1.1.name r1.1
    let st2 := { r1.2 with folders_renamed := r1.2.folders_renamed + r2.2 }
    let d3 := DirT.withName r2.1 "bee-kmp"
    let d4 := upsertSummary d3 (summary_content st2)
    (some d4, st2)

/-- Definition of `replace_in_content` following the spec text: apply
every pair longest-first, unconditionally adding the occurrence count
(computed on the current text) and substituting. -/
def ricStepSpec (acc : String × Nat) (p : String × String) : String × Nat :=
  (pyReplaceS acc.1 p.1 p.2, acc.2 + pyCountS acc.1 p.1)

/-- Spec-side content replacement, to be compared with
`replace_in_content`. -/
def replaceInContentSpec (mappings : List (String × String)) (content : String) : String × Nat :=
  (sortByLenDesc mappings).foldl ricStepSpec (content, 0)

/-- Spec-side renaming of a path component: same pairs, but applied
longest `old_term` first, as the spec prescribes (to be compared with
`rename_path_component`). -/
def renamePathComponentLongestFirst (mappings : List (String × String)) (name : String) : String :=
  (sortByLenDesc mappings).foldl
    (fun new_name p => if pyContainsS new_name p.1 then pyReplaceS new_name p.1 p.2 else new_name)
    name

/-- Insert a file at a position of a file list (used to state that an
unprocessable file leaves its siblings' processing unchanged). -/
def insertAt (fs : List FileE) (i : Nat) (f : FileE) : List FileE :=
  fs.take i ++ f :: fs.drop i

/-- Environment-injected I/O faults at the two fallible operations of
`process_file` besides the read (which `FileE.readable` already
models): `write_fails` makes `open(file_path, 'w')` raise (e.g. a
permission error, before the file is touched), `rename_fails` makes
`file_path.rename(...)` raise. -/
structure Faults where
  write_fails : Bool
  rename_fails : Bool

/-- The fault assignment that injects no fault anywhere. -/
def noFaults : Faults := ⟨false, false⟩

/-- The rename step with an injected rename fault: when the name
changes, `file_path.rename` is called and may raise.  Whether the
raise is caught depends on the caller: the source wraps the rename of
a processable file in `try/except` (line 159 inside lines 138-163) but
runs the rename of a non-processable file bare (line 134). -/
def renameStepExc (f : FileE) (fl : Faults) (st : Stats) : Except Unit (FileE × Stats) :=
  if rename_path_component term_mappings f.name ≠ f.name then
    if fl.rename_fails then .error ()
    else .ok ({ f with name := rename_path_component term_mappings f.name },
              { st with files_renamed := st.files_renamed + 1 })
  else .ok (f, st)

/-- The `except` clause around the final rename of the `try` block:
a raise from the rename is caught, leaving the file and statistics in
their current (post-write) state. -/
def catchPerFile (f : FileE) (st : Stats) (fl : Faults) : FileE × Stats :=
  match renameStepExc f fl st with
  | .error _ => (f, st)
  | .ok p => p

/-- The `try` block of `process_file` (source lines 138-163) under
injected faults: a raise at the read (unreadable file), at the write
(`write_fails`, raising at `open('w')` before the content is touched)
or at the rename of the processable file (`rename_fails`) is caught by
the `except` clause, so this function is total; a rename raise after a
successful write leaves the written content and the modification
statistics in place (lines 148-152 precede line 159). -/
def process_file_try (f : FileE) (fl : Faults) (st : Stats) : FileE × Stats :=
  if f.readable = false then (f, st)
  else if (replace_in_content term_mappings f.content).2 > 0 then
    if fl.write_fails then (f, st)
    else
      catchPerFile
        { f with content := (replace_in_content term_mappings f.content).1,
                 writes := f.writes + 1 }
        { st with files_modified := st.files_modified + 1,
                  replacements_made := st.replacements_made
                    + (replace_in_content term_mappings f.content).2 }
        fl
  else catchPerFile f st fl

/-- `process_file` under injected faults.  The branch for a
non-processable extension (source lines 128-136) performs its rename
OUTSIDE the `try/except` that only begins at line 138, so a raise
there propagates to the caller (`.error`); every fault inside the
`try` block is caught. -/
def process_file_exc (path : String) (f : FileE) (fl : Faults) (st : Stats) :
    Except Unit (FileE × Stats) :=
  if should_skip path then .ok (f, st)
  else if processable_extensions.contains (pathSuffix f.name) = false then
    renameStepExc f fl st
  else .ok (process_file_try f fl st)

/-- The file loop of `process_directory` under injected faults
(`flt` assigns the injected faults to each file path): an uncaught
exception from one file aborts the loop, so the remaining siblings are
not processed. -/
def processFiles_exc (flt : String → Faults) (dp : String) :
    List FileE → Stats → Except Unit (List FileE × Stats)
  | [], st => .ok ([], st)
  | f :: rest, st =>
    match process_file_exc (childPath dp f.name) f (flt (childPath dp f.name)) st with
    | .error e => .error e
    | .ok r1 =>
      match processFiles_exc flt dp rest r1.2 with
      | .error e => .error e
      | .ok r2 => .ok (r1.1 :: r2.1, r2.2)

mutual
/-- `process_directory` under injected file faults: an uncaught
exception from any file below aborts the whole walk (faults are
injected at file operations only; directory renames are assumed
healthy). -/
def process_directory_exc (flt : String → Faults) (dirPath : String) (isRoot : Bool)
    (d : DirT) (st : Stats) : Except Unit (DirT × Stats) :=
  match d with
  | .mk name fs ds =>
    if should_skip dirPath then .ok (DirT.mk name fs ds, st)
    else
      match processFiles_exc flt dirPath fs st with
      | .error e => .error e
      | .ok r1 =>
        match processSubdirs_exc flt dirPath ds r1.2 with
        | .error e => .error e
        | .ok r2 =>
          if rename_path_component term_mappings name ≠ name ∧ isRoot = false then
            .ok (DirT.mk (rename_path_component term_mappings name) r1.1 r2.1,
              { r2.2 with folders_renamed := r2.2.folders_renamed + 1 })
          else .ok (DirT.mk name r1.1 r2.1, r2.2)

/-- The subdirectory loop of `process_directory` under injected file
faults. -/
def processSubdirs_exc (flt : String → Faults) (dirPath : String) (ds : DirList) (st : Stats) :
    Except Unit (DirList × Stats) :=
  match ds with
  | .nil => .ok (.nil, st)
  | .cons d rest =>
    match process_directory_exc flt (childPath dirPath d.name) false d st with
    | .error e => .error e
    | .ok r1 =>
      match processSubdirs_exc flt dirPath rest r1.2 with
      | .error e => .error e
      | .ok r2 => .ok (.cons r1.1 r2.1, r2.2)
end

/-- The fault assignment that injects no fault at any path (a healthy
filesystem). -/
def faultFree : String → Faults := fun _ => noFaults

theorem leadsWith_iff : ∀ (p s : Chars), leadsWith p s = true ↔ p <+: s
  | [], s => by simp [leadsWith]
  | a :: as, [] => by simp [leadsWith]
  | a :: as, b :: bs => by
    simp only [leadsWith, List.cons_prefix_cons]
    split
    · next h => simp [h, leadsWith_iff as bs]
    · next h => simp [h]

theorem replaceSkip_of_countSkip_zero (pat rep : Chars) :
    ∀ s : Chars, countSkip pat 0 s = 0 → replaceSkip pat rep 0 s = s
  | [], _ => rfl
  | c :: rest, h => by
    simp only [countSkip, replaceSkip] at h ⊢
    split at h
    · omega
    · next hl =>
      rw [if_neg hl]
      exact congrArg (c :: ·) (replaceSkip_of_countSkip_zero pat rep rest h)

theorem infix_of_countSkip_ne_zero (pat : Chars) :
    ∀ s : Chars, countSkip pat 0 s ≠ 0 → pat <:+: s
  | [], h => absurd rfl h
  | c :: rest, h => by
    simp only [countSkip] at h
    split at h
    · next hl =>
      exact ((leadsWith_iff pat (c :: rest)).1 hl).isInfix
    · rcases infix_of_countSkip_ne_zero pat rest h with ⟨u, v, huv⟩
      exact ⟨c :: u, v, by rw [← huv]; rfl⟩

theorem countSkip_ne_zero_of_occurs (pat : Chars) (hne : pat ≠ []) :
    ∀ s : Chars, pat <:+: s → countSkip pat 0 s ≠ 0
  | [], h => absurd (List.eq_nil_of_infix_nil h) hne
  | c :: rest, h => by
    simp only [countSkip]
    rcases List.infix_cons_iff.1 h with hp | hi
    · rw [if_pos ((leadsWith_iff pat (c :: rest)).2 hp)]
      omega
    · split
      · omega
      · exact countSkip_ne_zero_of_occurs pat hne rest hi

theorem pyCount_zero_replace (s pat rep : Chars) (h : pyCount s pat = 0) :
    pyReplace s pat rep = s := by
  match pat with
  | [] => simp [pyCount] at h
  | c :: cs => exact replaceSkip_of_countSkip_zero _ rep s h

theorem pyReplaceS_of_count_zero (s pat rep : String) (h : pyCountS s pat = 0) :
    pyReplaceS s pat rep = s := by
  unfold pyReplaceS
  rw [pyCount_zero_replace s.data pat.data rep.data h]

theorem pyCount_pos_iff_occurs (s pat : Chars) (hne : pat ≠ []) :
    0 < pyCount s pat ↔ pat <:+: s := by
  match pat with
  | c :: cs =>
    simp only [pyCount]
    constructor
    · exact fun h => infix_of_countSkip_ne_zero _ s (by omega)
    · intro h
      have := countSkip_ne_zero_of_occurs (c :: cs) hne s h
      omega

theorem infix_append_right {pat a b : Chars} (h : pat <:+: a) : pat <:+: a ++ b := by
  rcases h with ⟨u, v, huv⟩
  exact ⟨u, v ++ b, by rw [← huv]; simp⟩

theorem infix_append_left {pat a b : Chars} (h : pat <:+: b) : pat <:+: a ++ b := by
  rcases h with ⟨u, v, huv⟩
  exact ⟨a ++ u, v, by rw [← huv]; simp⟩

theorem pyContainsS_append (p q pat : String) (h : pyContainsS p pat = true) :
    pyContainsS (p ++ q) pat = true := by
  unfold pyContainsS pyCountS at h ⊢
  rw [decide_eq_true_iff] at h ⊢
  rw [String.data_append]
  match hp : pat.data with
  | [] => simp [pyCount]
  | c :: cs =>
    rw [hp] at h
    rw [pyCount_pos_iff_occurs _ _ (by simp)] at h ⊢
    exact infix_append_right h

theorem should_skip_append (p q : String) (h : should_skip p = true) :
    should_skip (p ++ q) = true := by
  unfold should_skip at h ⊢
  rw [List.any_eq_true] at h ⊢
  rcases h with ⟨pat, hmem, hc⟩
  exact ⟨pat, hmem, pyContainsS_append p q pat hc⟩

theorem should_skip_child (p n : String) (h : should_skip p = true) :
    should_skip (childPath p n) = true := by
  unfold childPath
  exact should_skip_append _ _ (should_skip_append _ _ h)

theorem ricStep_snd_le (acc : String × Nat) (p : String × String) :
    acc.2 ≤ (ricStep acc p).2 := by
  unfold ricStep
  split
  · simp
  · exact le_refl _

theorem foldl_ricStep_mono :
    ∀ (l : List (String × String)) (acc : String × Nat), acc.2 ≤ (l.foldl ricStep acc).2
  | [], _ => le_refl _
  | p :: rest, acc => le_trans (ricStep_snd_le acc p) (foldl_ricStep_mono rest (ricStep acc p))

theorem ricStep_eq_spec (acc : String × Nat) (p : String × String) :
    ricStep acc p = ricStepSpec acc p := by
  unfold ricStep ricStepSpec
  split
  · rfl
  · next h =>
    have hz : pyCountS acc.1 p.1 = 0 := by omega
    rw [hz, pyReplaceS_of_count_zero _ _ _ hz, Nat.add_zero]

theorem foldl_ric_eq_spec :
    ∀ (l : List (String × String)) (acc : String × Nat),
      l.foldl ricStep acc = l.foldl ricStepSpec acc
  | [], _ => rfl
  | p :: rest, acc => by
    rw [List.foldl_cons, List.foldl_cons, ricStep_eq_spec, foldl_ric_eq_spec rest]

theorem renameStep_fst (f : FileE) (st : Stats) :
    (renameStep f st).1 = { f with name := rename_path_component term_mappings f.name } := by
  unfold renameStep
  split
  · rfl
  · next h =>
    rw [not_not] at h
    rw [h]

theorem renameStep_snd_repl (f : FileE) (st : Stats) :
    (renameStep f st).2.replacements_made = st.replacements_made := by
  unfold renameStep
  split <;> rfl

theorem process_file_skip (path : String) (f : FileE) (st : Stats)
    (h : should_skip path = true) : process_file path f st = (f, st) := by
  unfold process_file
  rw [if_pos h]

theorem process_file_read_fail (path : String) (f : FileE) (st : Stats)
    (hs : should_skip path = false)
    (hp : processable_extensions.contains (pathSuffix f.name) = true)
    (hr : f.readable = false) : process_file path f st = (f, st) := by
  unfold process_file
  rw [if_neg (by simp [hs]), if_neg (by rw [hp]; simp), if_pos hr]

theorem process_file_repl_mono (path : String) (f : FileE) (st : Stats) :
    st.replacements_made ≤ (process_file path f st).2.replacements_made := by
  unfold process_file
  split
  · exact le_refl _
  split
  · rw [renameStep_snd_repl]
  split
  · exact le_refl _
  split
  · rw [renameStep_snd_repl]
    simp
  · rw [renameStep_snd_repl]

theorem process_file_repl_add (path : String) (f : FileE) (st : Stats)
    (hs : should_skip path = false)
    (hp : processable_extensions.contains (pathSuffix f.name) = true)
    (hr : f.readable = true) :
    (process_file path f st).2.replacements_made
      = st.replacements_made + (replace_in_content term_mappings f.content).2 := by
  unfold process_file
  rw [if_neg (by simp [hs]), if_neg (by rw [hp]; simp), if_neg (by simp [hr])]
  split
  · rw [renameStep_snd_repl]
  · next h =>
    rw [renameStep_snd_repl]
    omega

theorem processFiles_cons (dp : String) (f : FileE) (rest : List FileE) (st : Stats) :
    processFiles dp (f :: rest) st
      = ((process_file (childPath dp f.name) f st).1
           :: (processFiles dp rest (process_file (childPath dp f.name) f st).2).1,
         (processFiles dp rest (process_file (childPath dp f.name) f st).2).2) := rfl

theorem processFiles_append (dp : String) :
    ∀ (xs ys : List FileE) (st : Stats),
      processFiles dp (xs ++ ys) st
        = ((processFiles dp xs st).1 ++ (processFiles dp ys (processFiles dp xs st).2).1,
           (processFiles dp ys (processFiles dp xs st).2).2)
  | [], ys, st => rfl
  | f :: xs, ys, st => by
    simp only [List.cons_append, processFiles_cons, processFiles_append dp xs ys]

theorem processFiles_length (dp : String) :
    ∀ (fs : List FileE) (st : Stats), (processFiles dp fs st).1.length = fs.length
  | [], _ => rfl
  | f :: rest, st => by
    simp only [processFiles_cons, List.length_cons, processFiles_length dp rest]

theorem processFiles_repl_mono (dp : String) :
    ∀ (fs : List FileE) (st : Stats),
      st.replacements_made ≤ (processFiles dp fs st).2.replacements_made
  | [], _ => le_refl _
  | f :: rest, st => by
    rw [processFiles_cons]
    exact le_trans (process_file_repl_mono (childPath dp f.name) f st)
      (processFiles_repl_mono dp rest _)

mutual
theorem process_directory_repl_mono (dp : String) (b : Bool) (d : DirT) (st : Stats) :
    st.replacements_made ≤ (process_directory dp b d st).2.replacements_made := by
  match d with
  | .mk name fs ds =>
    simp only [process_directory]
    split
    · exact le_refl _
    · have h1 := processFiles_repl_mono dp fs st
      have h2 := processSubdirs_repl_mono dp ds (processFiles dp fs st).2
      split
      · exact le_trans h1 h2
      · exact le_trans h1 h2

theorem processSubdirs_repl_mono (dp : String) (ds : DirList) (st : Stats) :
    st.replacements_made ≤ (processSubdirs dp ds st).2.replacements_made := by
  match ds with
  | .nil => exact le_refl _
  | .cons d rest =>
    simp only [processSubdirs]
    exact le_trans (process_directory_repl_mono (childPath dp d.name) false d st)
      (processSubdirs_repl_mono dp rest _)
end

theorem process_directory_skip (dp : String) (b : Bool) (d : DirT) (st : Stats)
    (h : should_skip dp = true) : process_directory dp b d st = (d, st) := by
  match d with
  | .mk name fs ds =>
    unfold process_directory
    rw [if_pos h]

mutual
theorem rename_pkg_skip (dp : String) (d : DirT) (h : should_skip dp = true) :
    rename_pkg dp d = (d, 0) := by
  match d with
  | .mk name fs ds =>
    unfold rename_pkg
    rw [h]
    simp only [Bool.not_true, Bool.and_false]
    rw [renamePkgChildren_skip dp ds h]

theorem renamePkgChildren_skip (dp : String) (ds : DirList) (h : should_skip dp = true) :
    renamePkgChildren dp false ds = (ds, 0) := by
  match ds with
  | .nil => rfl
  | .cons c rest =>
    unfold renamePkgChildren
    rw [if_neg (by simp)]
    rw [rename_pkg_skip (childPath dp c.name) c (should_skip_child dp c.name h)]
    rw [renamePkgChildren_skip dp rest h]
    rfl
end

theorem upsertFileList_split (content : String) :
    ∀ fs : List FileE, ∃ (u v : List FileE) (w : Nat),
      upsertFileList content fs = u ++ ⟨"REBRAND_SUMMARY.md", content, true, w⟩ :: v
  | [] => ⟨[], [], 1, rfl⟩
  | f :: rest => by
    unfold upsertFileList
    split
    · next h =>
      exact ⟨[], rest, f.writes + 1, by simp [h]⟩
    · rcases upsertFileList_split content rest with ⟨u, v, w, hw⟩
      exact ⟨f :: u, v, w, by rw [hw]; rfl⟩

theorem tagline_infix_tail : ("Where conversations spark").data <:+: summaryTail.data := by
  decide

theorem pyContainsS_summary (pat : String) (hne : pat.data ≠ [])
    (hinf : pat.data <:+: summaryTail.data) (st : Stats) :
    pyContainsS (summary_content st) pat = true := by
  unfold pyContainsS pyCountS
  rw [decide_eq_true_iff, pyCount_pos_iff_occurs _ _ hne]
  unfold summary_content
  rw [String.data_append]
  exact infix_append_left hinf

theorem summary_count_tagline_pos (st : Stats) :
    0 < pyCountS (summary_content st) "Where conversations spark" := by
  rw [pyCountS, pyCount_pos_iff_occurs _ _ (by decide)]
  unfold summary_content
  rw [String.data_append]
  exact infix_append_left tagline_infix_tail

theorem sorted_term_mappings_head :
    sortByLenDesc term_mappings
      = ("Where conversations spark", "Where conversations buzz")
          :: (sortByLenDesc term_mappings).tail := by
  decide

theorem foldl_ric_head_pos (p : String × String) (rest : List (String × String)) (c : String)
    (h : 0 < pyCountS c p.1) : 0 < ((p :: rest).foldl ricStep (c, 0)).2 := by
  rw [List.foldl_cons]
  refine lt_of_lt_of_le ?_ (foldl_ricStep_mono rest (ricStep (c, 0) p))
  unfold ricStep
  rw [if_pos (by simpa using h)]
  simpa using h

theorem summary_repl_pos (st : Stats) :
    0 < (replace_in_content term_mappings (summary_content st)).2 := by
  unfold replace_in_content
  rw [sorted_term_mappings_head]
  exact foldl_ric_head_pos _ _ _ (summary_count_tagline_pos st)

theorem rebrand_some_shape (d : DirT) :
    ∃ (fs : List FileE) (ds : DirList),
      (rebrand (some d)).1
        = some (DirT.mk "bee-kmp"
            (upsertFileList (summary_content (rebrand (some d)).2) fs) ds) := by
  simp only [rebrand]
  rcases hr : (rename_pkg (process_directory d.name true d initStats).1.name
      (process_directory d.name true d initStats).1).1 with ⟨n, fs, ds⟩
  exact ⟨fs, ds, rfl⟩

theorem process_file_repl_add_name (path nm c : String) (w : Nat) (st : Stats)
    (hs : should_skip path = false)
    (hp : processable_extensions.contains (pathSuffix nm) = true) :
    (process_file path ⟨nm, c, true, w⟩ st).2.replacements_made
      = st.replacements_made + (replace_in_content term_mappings c).2 :=
  process_file_repl_add path ⟨nm, c, true, w⟩ st hs hp rfl

theorem procDir_root_pos (F : List FileE) (ds : DirList) (u v : List FileE) (w : Nat) (c : String)
    (hF : F = u ++ ⟨"REBRAND_SUMMARY.md", c, true, w⟩ :: v)
    (hc : 0 < (replace_in_content term_mappings c).2) :
    0 < (process_directory "bee-kmp" true (DirT.mk "bee-kmp" F ds) initStats).2.replacements_made := by
  subst hF
  simp only [process_directory]
  rw [if_neg (by decide)]
  have hchain :
      0 < (processFiles "bee-kmp"
            (u ++ ⟨"REBRAND_SUMMARY.md", c, true, w⟩ :: v) initStats).2.replacements_made := by
    rw [processFiles_append, processFiles_cons]
    dsimp only
    refine lt_of_lt_of_le ?_ (processFiles_repl_mono "bee-kmp" v _)
    rw [process_file_repl_add_name (childPath "bee-kmp" "REBRAND_SUMMARY.md")
        "REBRAND_SUMMARY.md" c w (processFiles "bee-kmp" u initStats).2
        (by decide) (by decide)]
    omega
  have h2 := processSubdirs_repl_mono "bee-kmp" ds
    (processFiles "bee-kmp" (u ++ ⟨"REBRAND_SUMMARY.md", c, true, w⟩ :: v) initStats).2
  split
  · exact lt_of_lt_of_le hchain h2
  · exact lt_of_lt_of_le hchain h2

theorem secondRunPositive (d0 : DirT) :
    0 < (rebrand ((rebrand (some d0)).1)).2.replacements_made := by
  rcases rebrand_some_shape d0 with ⟨fs, ds, hshape⟩
  rw [hshape]
  rcases upsertFileList_split (summary_content (rebrand (some d0)).2) fs with ⟨u, v, w, hsplit⟩
  simp only [rebrand, DirT.name]
  exact procDir_root_pos _ ds u v w _ hsplit (summary_repl_pos _)

theorem insertAt_append (fs1 fs2 : List FileE) (f : FileE) :
    insertAt (fs1 ++ fs2) fs1.length f = fs1 ++ f :: fs2 := by
  unfold insertAt
  rw [List.take_left, List.drop_left]

theorem insertAt_append_of_length (A B : List FileE) (f : FileE) (i : Nat) (h : A.length = i) :
    insertAt (A ++ B) i f = A ++ f :: B := by
  subst h
  exact insertAt_append A B f

theorem processFiles_isolate (dp : String) (bad : FileE)
    (hbad : ∀ s : Stats, process_file (childPath dp bad.name) bad s = (bad, s))
    (fs1 fs2 : List FileE) (st : Stats) :
    processFiles dp (fs1 ++ bad :: fs2) st
      = ((processFiles dp fs1 st).1
           ++ bad :: (processFiles dp fs2 (processFiles dp fs1 st).2).1,
         (processFiles dp fs2 (processFiles dp fs1 st).2).2) := by
  rw [processFiles_append, processFiles_cons, hbad]

theorem pyContainsS_star (p pat : String) (hstar : '*' ∈ pat.data)
    (hc : pyContainsS p pat = true) : '*' ∈ p.data := by
  unfold pyContainsS pyCountS at hc
  rw [decide_eq_true_iff] at hc
  match hq : pat.data with
  | [] =>
    rw [hq] at hstar
    simp at hstar
  | c :: cs =>
    rw [hq] at hc hstar
    rw [pyCount_pos_iff_occurs _ _ (by simp)] at hc
    exact hc.subset hstar

/-- C1: `replace_in_content` applies the mapping pairs in
longest-`old_term`-first order using literal substring replacement and
returns the total number of occurrences replaced, each pair's count
taken against the text already modified by the earlier (longer) pairs
(equality with the spec-side definition, for every mapping and text);
on `"Reyeets are cool yeets"` under
{Reyeets→Rebuzzes, Yeet→Buzz, yeets→buzzes} it yields
`"Rebuzzes are cool buzzes"` (with 2 occurrences replaced), not a
hybrid. -/
theorem c1_replace_longest_first :
    (∀ (mappings : List (String × String)) (content : String),
        replace_in_content mappings content = replaceInContentSpec mappings content)
    ∧ replace_in_content [("Reyeets", "Rebuzzes"), ("Yeet", "Buzz"), ("yeets", "buzzes")]
        "Reyeets are cool yeets" = ("Rebuzzes are cool buzzes", 2) := by
  refine ⟨fun m c => ?_, by decide⟩
  unfold replace_in_content replaceInContentSpec
  exact foldl_ric_eq_spec _ _

/-- C2: contrary to the claim, `rename_path_component` applies the
mapping pairs in dict insertion order, not longest-`old_term`-first:
on the name `"Reyeets.kt"` the shorter pair `yeet→buzz` (5th in the
dict) fires before the `Reyeets→Rebuzzes` pair (13th), producing the
hybrid `"Rebuzzs.kt"`, while the longest-first application prescribed
by the claim produces `"Rebuzzes.kt"`. -/
theorem c2_rename_insertion_order :
    rename_path_component term_mappings "Reyeets.kt" = "Rebuzzs.kt"
    ∧ renamePathComponentLongestFirst term_mappings "Reyeets.kt" = "Rebuzzes.kt"
    ∧ ("Rebuzzs.kt" : String) ≠ "Rebuzzes.kt" :=
  ⟨by decide, by decide, by decide⟩

/-- C3 (amended): a second run of the rebrander over the tree produced
by a completed first run always performs at least one additional
content replacement, because the first run writes `REBRAND_SUMMARY.md`
under the new root and that document contains mapped old terms (for
instance the old tagline); the rebranded tree is therefore not
old-term-free and the run is not idempotent. -/
theorem c3_second_run_replaces (d0 : DirT) :
    0 < (rebrand ((rebrand (some d0)).1)).2.replacements_made :=
  secondRunPositive d0

/-- C3 counterexample: starting from an empty root directory, the
first run completes, and the second run over the resulting tree
performs a nonzero number of content replacements, contradicting the
claim that a second run performs zero replacements. -/
theorem c3_counterexample :
    (rebrand ((rebrand (some (DirT.mk "pika-kmp" [] DirList.nil))).1)).2.replacements_made ≠ 0 :=
  Nat.pos_iff_ne_zero.mp (secondRunPositive (DirT.mk "pika-kmp" [] DirList.nil))

/-- Deterministic per-file isolation: a file whose read raises (so the
`try/except` catches it) contributes nothing, and the directory's
result is exactly the result of processing the same directory without
that file, with the file re-inserted unchanged. -/
theorem processDir_isolate (dp : String) (b : Bool) (name : String)
    (fs1 fs2 : List FileE) (bad : FileE) (ds : DirList) (st : Stats)
    (hr : bad.readable = false)
    (hs : should_skip (childPath dp bad.name) = false)
    (hp : processable_extensions.contains (pathSuffix bad.name) = true) :
    process_directory dp b (DirT.mk name (fs1 ++ bad :: fs2) ds) st
      = (DirT.mk (process_directory dp b (DirT.mk name (fs1 ++ fs2) ds) st).1.name
          (insertAt (process_directory dp b (DirT.mk name (fs1 ++ fs2) ds) st).1.files
            fs1.length bad)
          (process_directory dp b (DirT.mk name (fs1 ++ fs2) ds) st).1.subdirs,
        (process_directory dp b (DirT.mk name (fs1 ++ fs2) ds) st).2) := by
  have hbad : ∀ s : Stats, process_file (childPath dp bad.name) bad s = (bad, s) :=
    fun s => process_file_read_fail _ bad s hs hp hr
  have hlen := processFiles_length dp fs1 st
  simp only [process_directory]
  rw [processFiles_isolate dp bad hbad fs1 fs2 st, processFiles_append dp fs1 fs2 st]
  split
  · dsimp only [DirT.name, DirT.files, DirT.subdirs]
    rw [insertAt_append]
  · split
    · dsimp only [DirT.name, DirT.files, DirT.subdirs]
      rw [insertAt_append_of_length _ _ bad fs1.length hlen]
    · dsimp only [DirT.name, DirT.files, DirT.subdirs]
      rw [insertAt_append_of_length _ _ bad fs1.length hlen]

theorem renameStepExc_noFault (f : FileE) (fl : Faults) (h : fl.rename_fails = false)
    (st : Stats) : renameStepExc f fl st = .ok (renameStep f st) := by
  unfold renameStepExc renameStep
  split
  · rw [h]
    simp
  · rfl

theorem catchPerFile_noFault (f : FileE) (fl : Faults) (h : fl.rename_fails = false)
    (st : Stats) : catchPerFile f st fl = renameStep f st := by
  unfold catchPerFile
  rw [renameStepExc_noFault f fl h st]

theorem process_file_exc_noFaults (path : String) (f : FileE) (st : Stats) :
    process_file_exc path f noFaults st = .ok (process_file path f st) := by
  unfold process_file_exc process_file
  split
  · rfl
  · split
    · exact renameStepExc_noFault f noFaults rfl st
    · unfold process_file_try
      split
      · rfl
      · split
        · rw [if_neg (by simp [noFaults]), catchPerFile_noFault _ _ rfl]
        · rw [catchPerFile_noFault _ _ rfl]

theorem processFiles_exc_noFaults (dp : String) :
    ∀ (fs : List FileE) (st : Stats),
      processFiles_exc faultFree dp fs st = .ok (processFiles dp fs st)
  | [], _ => rfl
  | f :: rest, st => by
    unfold processFiles_exc
    rw [show faultFree (childPath dp f.name) = noFaults from rfl,
      process_file_exc_noFaults (childPath dp f.name) f st]
    dsimp only
    rw [processFiles_exc_noFaults dp rest (process_file (childPath dp f.name) f st).2]
    rfl

mutual
theorem process_directory_exc_noFaults (dp : String) (b : Bool) (d : DirT) (st : Stats) :
    process_directory_exc faultFree dp b d st = .ok (process_directory dp b d st) := by
  match d with
  | .mk name fs ds =>
    unfold process_directory_exc process_directory
    split
    · rfl
    · rw [processFiles_exc_noFaults dp fs st]
      dsimp only
      rw [processSubdirs_exc_noFaults dp ds (processFiles dp fs st).2]
      dsimp only
      split
      · rfl
      · rfl

theorem processSubdirs_exc_noFaults (dp : String) (ds : DirList) (st : Stats) :
    processSubdirs_exc faultFree dp ds st = .ok (processSubdirs dp ds st) := by
  match ds with
  | .nil => rfl
  | .cons d rest =>
    unfold processSubdirs_exc processSubdirs
    rw [process_directory_exc_noFaults (childPath dp d.name) false d st]
    dsimp only
    rw [processSubdirs_exc_noFaults dp rest
      (process_directory (childPath dp d.name) false d st).2]
end

/-- C4 (amended): every exception raised inside the per-file
`try/except` — reading, replacing, writing, or renaming a processable
file — is caught and does not abort the run: processing a processable
file always returns (under arbitrary injected faults), and a file
whose read raises is isolated: the directory's result is exactly the
result of processing the same directory without it, siblings and the
rest of the tree processed and modified identically; however, the
rename of a file with a non-processable extension runs outside the
`try/except`, so an exception there is not covered (see the
counterexample: it aborts the run uncaught). -/
theorem c4_try_scope_isolation :
    (∀ (path : String) (f : FileE) (fl : Faults) (st : Stats),
        processable_extensions.contains (pathSuffix f.name) = true →
        ∃ r : FileE × Stats, process_file_exc path f fl st = .ok r)
    ∧ (∀ (dp : String) (b : Bool) (name : String) (fs1 fs2 : List FileE) (bad : FileE)
         (ds : DirList) (st : Stats),
        bad.readable = false →
        should_skip (childPath dp bad.name) = false →
        processable_extensions.contains (pathSuffix bad.name) = true →
        process_directory_exc faultFree dp b (DirT.mk name (fs1 ++ bad :: fs2) ds) st
          = .ok (DirT.mk
              (process_directory dp b (DirT.mk name (fs1 ++ fs2) ds) st).1.name
              (insertAt (process_directory dp b (DirT.mk name (fs1 ++ fs2) ds) st).1.files
                fs1.length bad)
              (process_directory dp b (DirT.mk name (fs1 ++ fs2) ds) st).1.subdirs,
            (process_directory dp b (DirT.mk name (fs1 ++ fs2) ds) st).2)) := by
  constructor
  · intro path f fl st hp
    unfold process_file_exc
    split
    · exact ⟨(f, st), rfl⟩
    · rw [if_neg (by rw [hp]; simp)]
      exact ⟨process_file_try f fl st, rfl⟩
  · intro dp b name fs1 fs2 bad ds st hr hs hp
    rw [process_directory_exc_noFaults,
      processDir_isolate dp b name fs1 fs2 bad ds st hr hs hp]

/-- C4 counterexample: the claim as stated is false.  The file
`pika.png` has a non-processable extension, so its rename
(source lines 130-134) runs outside the `try/except` that only begins
at line 138; with a rename fault injected at that file, the exception
propagates uncaught and the walk aborts (`.error`), so the sibling
`Z.kt` is never processed — while the same tree under a healthy
filesystem is processed to completion. -/
theorem c4_uncaught_rename_counterexample :
    process_directory_exc
        (fun p => if p = "pika-kmp/pika.png" then ⟨false, true⟩ else noFaults)
        "pika-kmp" true
        (DirT.mk "pika-kmp"
          [⟨"A.kt", "yeet it", true, 0⟩, ⟨"pika.png", "IMG", true, 0⟩,
           ⟨"Z.kt", "Pika", true, 0⟩] DirList.nil)
        initStats
      = .error ()
    ∧ process_directory_exc faultFree "pika-kmp" true
        (DirT.mk "pika-kmp"
          [⟨"A.kt", "yeet it", true, 0⟩, ⟨"pika.png", "IMG", true, 0⟩,
           ⟨"Z.kt", "Pika", true, 0⟩] DirList.nil)
        initStats
      = .ok (process_directory "pika-kmp" true
          (DirT.mk "pika-kmp"
            [⟨"A.kt", "yeet it", true, 0⟩, ⟨"pika.png", "IMG", true, 0⟩,
             ⟨"Z.kt", "Pika", true, 0⟩] DirList.nil)
          initStats) :=
  ⟨rfl, rfl⟩

theorem c4_try_scope_isolation_witness :
    (processable_extensions.contains
        (pathSuffix (⟨"Crash.kt", "Pika", true, 0⟩ : FileE).name) = true
      ∧ (⟨"Crash.kt", "Pika", false, 0⟩ : FileE).readable = false
      ∧ should_skip (childPath "pika-kmp" (⟨"Crash.kt", "Pika", false, 0⟩ : FileE).name) = false
      ∧ processable_extensions.contains
          (pathSuffix (⟨"Crash.kt", "Pika", false, 0⟩ : FileE).name) = true)
    ∧ (∃ r : FileE × Stats,
        process_file_exc "pika-kmp/Crash.kt" ⟨"Crash.kt", "Pika", true, 0⟩ ⟨true, true⟩ initStats
          = .ok r)
    ∧ process_directory_exc faultFree "pika-kmp" true
        (DirT.mk "pika-kmp"
          ([⟨"A.kt", "yeet A", true, 0⟩] ++ ⟨"Crash.kt", "Pika", false, 0⟩
            :: [⟨"Z.kt", "Pika Z", true, 0⟩]) DirList.nil) initStats
      = .ok (DirT.mk
          (process_directory "pika-kmp" true
            (DirT.mk "pika-kmp" ([⟨"A.kt", "yeet A", true, 0⟩] ++ [⟨"Z.kt", "Pika Z", true, 0⟩])
              DirList.nil) initStats).1.name
          (insertAt
            (process_directory "pika-kmp" true
              (DirT.mk "pika-kmp" ([⟨"A.kt", "yeet A", true, 0⟩] ++ [⟨"Z.kt", "Pika Z", true, 0⟩])
                DirList.nil) initStats).1.files
            1 ⟨"Crash.kt", "Pika", false, 0⟩)
          (process_directory "pika-kmp" true
            (DirT.mk "pika-kmp" ([⟨"A.kt", "yeet A", true, 0⟩] ++ [⟨"Z.kt", "Pika Z", true, 0⟩])
              DirList.nil) initStats).1.subdirs,
        (process_directory "pika-kmp" true
          (DirT.mk "pika-kmp" ([⟨"A.kt", "yeet A", true, 0⟩] ++ [⟨"Z.kt", "Pika Z", true, 0⟩])
            DirList.nil) initStats).2) :=
  ⟨by decide,
   c4_try_scope_isolation.1 "pika-kmp/Crash.kt" ⟨"Crash.kt", "Pika", true, 0⟩ ⟨true, true⟩
     initStats (by decide),
   c4_try_scope_isolation.2 "pika-kmp" true "pika-kmp"
     [⟨"A.kt", "yeet A", true, 0⟩] [⟨"Z.kt", "Pika Z", true, 0⟩]
     ⟨"Crash.kt", "Pika", false, 0⟩ DirList.nil initStats rfl (by decide) (by decide)⟩

/-- C5 counterexample: for the tree containing the single file
`app/Pika.kt` with content `val x = "Pika rocks, yeet it"`, one run
leaves `replacements_made = 2` (one `Pika`, one `yeet`), not 3 as the
claim states. -/
theorem c5_stats_counterexample :
    (rebrand (some (DirT.mk "pika-kmp" []
        (DirList.cons
          (DirT.mk "app" [⟨"Pika.kt", "val x = \"Pika rocks, yeet it\"", true, 0⟩] DirList.nil)
          DirList.nil)))).2.replacements_made ≠ 3 := by
  decide

/-- C5 (amended): for the tree containing the single file `app/Pika.kt`
with content `val x = "Pika rocks, yeet it"`, one run renames the file
to `app/Bee.kt`, rewrites its content to `val x = "Bee rocks, buzz it"`,
and leaves the statistics at `files_renamed = 1`, `folders_renamed = 0`,
`files_modified = 1`, `replacements_made = 2` (the run also renames the
root and writes the summary document under it). -/
theorem c5_end_to_end :
    rebrand (some (DirT.mk "pika-kmp" []
        (DirList.cons
          (DirT.mk "app" [⟨"Pika.kt", "val x = \"Pika rocks, yeet it\"", true, 0⟩] DirList.nil)
          DirList.nil)))
      = (some (DirT.mk "bee-kmp"
            [⟨"REBRAND_SUMMARY.md", summary_content ⟨1, 0, 1, 2⟩, true, 1⟩]
            (DirList.cons
              (DirT.mk "app" [⟨"Bee.kt", "val x = \"Bee rocks, buzz it\"", true, 1⟩] DirList.nil)
              DirList.nil)),
         ⟨1, 0, 1, 2⟩) := by
  rfl

/-- C6: a file whose extension is not processable is never read or
rewritten — its content, readability and write count are untouched and
only its name is mapped — and a processable file with zero replacements
is not written back, so its content and write count are likewise
untouched while its name is still mapped. -/
theorem c6_frame :
    (∀ (path : String) (f : FileE) (st : Stats),
        should_skip path = false →
        processable_extensions.contains (pathSuffix f.name) = false →
        (process_file path f st).1
          = { f with name := rename_path_component term_mappings f.name })
    ∧ (∀ (path : String) (f : FileE) (st : Stats),
        should_skip path = false →
        processable_extensions.contains (pathSuffix f.name) = true →
        f.readable = true →
        (replace_in_content term_mappings f.content).2 = 0 →
        (process_file path f st).1
          = { f with name := rename_path_component term_mappings f.name }) := by
  constructor
  · intro path f st hs hp
    unfold process_file
    rw [if_neg (by simp [hs]), if_pos hp]
    exact renameStep_fst f st
  · intro path f st hs hp hr hz
    unfold process_file
    rw [if_neg (by simp [hs]), if_neg (by rw [hp]; simp), if_neg (by simp [hr]),
      if_neg (by omega)]
    exact renameStep_fst f st

theorem c6_frame_witness :
    (should_skip "pika-kmp/res/pika.png" = false
      ∧ processable_extensions.contains (pathSuffix "pika.png") = false
      ∧ should_skip "pika-kmp/docs/notes.md" = false
      ∧ processable_extensions.contains (pathSuffix "notes.md") = true
      ∧ (replace_in_content term_mappings "nothing to change").2 = 0)
    ∧ (process_file "pika-kmp/res/pika.png" ⟨"pika.png", "BYTES", false, 0⟩ initStats).1
        = { (⟨"pika.png", "BYTES", false, 0⟩ : FileE) with
              name := rename_path_component term_mappings "pika.png" }
    ∧ (process_file "pika-kmp/docs/notes.md" ⟨"notes.md", "nothing to change", true, 3⟩
          initStats).1
        = { (⟨"notes.md", "nothing to change", true, 3⟩ : FileE) with
              name := rename_path_component term_mappings "notes.md" } :=
  ⟨by decide,
   c6_frame.1 "pika-kmp/res/pika.png" ⟨"pika.png", "BYTES", false, 0⟩ initStats
     (by decide) (by decide),
   c6_frame.2 "pika-kmp/docs/notes.md" ⟨"notes.md", "nothing to change", true, 3⟩ initStats
     (by decide) (by decide) rfl (by decide)⟩

/-- C7: a missing root path makes the run abort immediately with
nothing modified and no summary written (the result is the absent tree
and the untouched initial statistics), and it is the only fatal
precondition: for every existing root the run proceeds to completion
and produces a tree. -/
theorem c7_missing_root_aborts :
    rebrand none = (none, initStats)
    ∧ ∀ d : DirT, ∃ r : DirT, (rebrand (some d)).1 = some r := by
  refine ⟨rfl, fun d => ?_⟩
  rcases rebrand_some_shape d with ⟨fs, ds, h⟩
  exact ⟨_, h⟩

/-- C8: any path containing a configured skip substring is reported by
`should_skip`; a skipped directory is returned untouched by the walk
(its subtree is never traversed: no content rewrite, no rename, no
statistics change), a skipped file is returned untouched, and the
package-relocation phase renames nothing at or below a skipped path. -/
theorem c8_skip_rules :
    (∀ p pat : String, pat ∈ skip_patterns → pyContainsS p pat = true → should_skip p = true)
    ∧ (∀ (dp : String) (b : Bool) (d : DirT) (st : Stats),
        should_skip dp = true → process_directory dp b d st = (d, st))
    ∧ (∀ (p : String) (f : FileE) (st : Stats),
        should_skip p = true → process_file p f st = (f, st))
    ∧ (∀ (dp : String) (d : DirT), should_skip dp = true → rename_pkg dp d = (d, 0)) := by
  refine ⟨?_, process_directory_skip, process_file_skip, rename_pkg_skip⟩
  intro p pat hm hc
  unfold should_skip
  rw [List.any_eq_true]
  exact ⟨pat, hm, hc⟩

theorem c8_skip_rules_witness :
    ((".git" : String) ∈ skip_patterns ∧ pyContainsS "pika-kmp/.git/config" ".git" = true
      ∧ should_skip "pika-kmp/.git" = true ∧ should_skip "pika-kmp/.git/Pika.kt" = true)
    ∧ should_skip "pika-kmp/.git/config" = true
    ∧ process_directory "pika-kmp/.git" false
        (DirT.mk ".git" [⟨"Pika.kt", "Pika yeet", true, 0⟩] DirList.nil) initStats
      = (DirT.mk ".git" [⟨"Pika.kt", "Pika yeet", true, 0⟩] DirList.nil, initStats)
    ∧ process_file "pika-kmp/.git/Pika.kt" ⟨"Pika.kt", "Pika yeet", true, 0⟩ initStats
      = (⟨"Pika.kt", "Pika yeet", true, 0⟩, initStats)
    ∧ rename_pkg "pika-kmp/.git"
        (DirT.mk ".git" [] (DirList.cons (DirT.mk "pika" [] DirList.nil) DirList.nil))
      = (DirT.mk ".git" [] (DirList.cons (DirT.mk "pika" [] DirList.nil) DirList.nil), 0) :=
  ⟨by decide,
   c8_skip_rules.1 "pika-kmp/.git/config" ".git" (by decide) (by decide),
   c8_skip_rules.2.1 "pika-kmp/.git" false
     (DirT.mk ".git" [⟨"Pika.kt", "Pika yeet", true, 0⟩] DirList.nil) initStats (by decide),
   c8_skip_rules.2.2.1 "pika-kmp/.git/Pika.kt" ⟨"Pika.kt", "Pika yeet", true, 0⟩ initStats
     (by decide),
   c8_skip_rules.2.2.2 "pika-kmp/.git"
     (DirT.mk ".git" [] (DirList.cons (DirT.mk "pika" [] DirList.nil) DirList.nil)) (by decide)⟩

/-- C9: the skip entries `*.class` and `*.jar` are matched as literal
substrings, not globs: for any path without a literal `*` character
neither entry matches, so `.class`/`.jar` files are not skipped (shown
on a concrete path) and remain candidates for renaming
(`Pika.class` is renamed to `Bee.class`). -/
theorem c9_glob_entries_literal :
    (∀ p : String, '*' ∉ p.data →
        pyContainsS p "*.class" = false ∧ pyContainsS p "*.jar" = false)
    ∧ should_skip "pika-kmp/app/Pika.class" = false
    ∧ (process_file "pika-kmp/app/Pika.class" ⟨"Pika.class", "binary", true, 0⟩ initStats).1.name
        = "Bee.class" := by
  refine ⟨fun p hn => ⟨?_, ?_⟩, by decide, by decide⟩
  · cases hcl : pyContainsS p "*.class"
    · rfl
    · exact absurd (pyContainsS_star p "*.class" (by decide) hcl) hn
  · cases hcl : pyContainsS p "*.jar"
    · rfl
    · exact absurd (pyContainsS_star p "*.jar" (by decide) hcl) hn

theorem c9_glob_entries_literal_witness :
    ('*' ∉ ("libs/app.jar" : String).data)
    ∧ pyContainsS "libs/app.jar" "*.class" = false
    ∧ pyContainsS "libs/app.jar" "*.jar" = false :=
  ⟨by decide,
   (c9_glob_entries_literal.1 "libs/app.jar" (by decide)).1,
   (c9_glob_entries_literal.1 "libs/app.jar" (by decide)).2⟩

/-- C10: after every completed run the root of the produced tree
contains `REBRAND_SUMMARY.md`, whose content still contains the mapped
old terms `Pika`, `pika` and `Yeet`; the tree produced by a completed
run is therefore not free of `old_term` occurrences. -/
theorem c10_summary_contains_old_terms (d : DirT) :
    ∃ (r : DirT) (f : FileE),
      (rebrand (some d)).1 = some r
      ∧ f ∈ r.files
      ∧ f.name = "REBRAND_SUMMARY.md"
      ∧ pyContainsS f.content "Pika" = true
      ∧ pyContainsS f.content "pika" = true
      ∧ pyContainsS f.content "Yeet" = true := by
  rcases rebrand_some_shape d with ⟨fs, ds, h⟩
  rcases upsertFileList_split (summary_content (rebrand (some d)).2) fs with ⟨u, v, w, hsplit⟩
  refine ⟨_, ⟨"REBRAND_SUMMARY.md", summary_content (rebrand (some d)).2, true, w⟩,
    h, ?_, rfl, ?_, ?_, ?_⟩
  · dsimp only [DirT.files]
    rw [hsplit]
    exact List.mem_append_right _ (List.mem_cons_self _ _)
  · exact pyContainsS_summary _ (by decide) (by decide) _
  · exact pyContainsS_summary _ (by decide) (by decide) _
  · exact pyContainsS_summary _ (by decide) (by decide) _

example : pathSuffix "Pika.kt" = ".kt" := by decide
example : pathSuffix ".gitignore" = "" := by decide
example : pathSuffix "REBRAND_SUMMARY.md" = ".md" := by decide
example : pyCountS "Reyeets are cool yeets" "yeets" = 2 := by decide
example : pyReplaceS "Reyeets are cool yeets" "Reyeets" "Rebuzzes" = "Rebuzzes are cool yeets" := by decide
example : replace_in_content [("Reyeets", "Rebuzzes"), ("Yeet", "Buzz"), ("yeets", "buzzes")]
    "Reyeets are cool yeets" = ("Rebuzzes are cool buzzes", 2) := by decide
example : rename_path_component term_mappings "Reyeets.kt" = "Rebuzzs.kt" := by decide
